import Mathlib

/-!
Verification of the camera / vector-math program of this repository.

The program keeps a camera state (position, direction, right, up, yaw,
pitch, view matrix) and mutates it inside an SDL event loop.  We embed the
arithmetic over the exact reals (`ℝ` in place of C `float`), the SDL events
the loop inspects as an inductive type, and the body of the event `switch`
as a state-transition function.  The full program lives in
`src/unnamed/part_000`; the minimal variant in `src/main.c` has a reduced
event loop that is embedded separately.
-/

/-- `Vec3f` models the C struct `Vec3f` (`float value[3]`), with the three
components named `x`, `y`, `z` and exact real arithmetic in place of
`float`. -/
@[ext]
structure Vec3f where
  x : ℝ
  y : ℝ
  z : ℝ

/-- `vec3f_get_length`: `sqrtf(x*x + y*y + z*z)` from the source. -/
noncomputable def vec3f_get_length (v : Vec3f) : ℝ :=
  Real.sqrt (v.x * v.x + v.y * v.y + v.z * v.z)

/-- `vec3f_normalize`: divides each component by `vec3f_get_length`, exactly
as the source does; there is no runtime check for zero length. -/
noncomputable def vec3f_normalize (v : Vec3f) : Vec3f :=
  ⟨v.x / vec3f_get_length v, v.y / vec3f_get_length v, v.z / vec3f_get_length v⟩

/-- `vec3f_cross` from the source: the right-handed cross product. -/
def vec3f_cross (a b : Vec3f) : Vec3f :=
  ⟨a.y * b.z - a.z * b.y, a.z * b.x - a.x * b.z, a.x * b.y - a.y * b.x⟩

/-- Componentwise negation of a `Vec3f` (the `-v` the spec writes in
`cross(a,b) = -cross(b,a)`; the source has no such helper, it is the
mathematical negation). -/
def vec3f_neg (v : Vec3f) : Vec3f :=
  ⟨-v.x, -v.y, -v.z⟩

instance : Neg Vec3f :=
  ⟨vec3f_neg⟩

/-- The mathematical dot product of two `Vec3f`, used by the spec to state
orthogonality of the camera basis (the source has no dot helper). -/
def vec3f_dot (a b : Vec3f) : ℝ :=
  a.x * b.x + a.y * b.y + a.z * b.z

/-- `Mat4f` models the C struct `Mat4f` (`float value[4][4]`), row major. -/
abbrev Mat4f := Fin 4 → Fin 4 → ℝ

/-- `mat4f_product` from the source: each entry starts at `0.0f` and the
inner `k` loop accumulates `mat1[i][k] * mat2[k][j]` for `k = 0,1,2,3`. -/
def mat4f_product (m1 m2 : Mat4f) : Mat4f := fun i j =>
  0 + m1 i 0 * m2 0 j + m1 i 1 * m2 1 j + m1 i 2 * m2 2 j + m1 i 3 * m2 3 j

/-- The rotation factor `mat1` built in `main`: rows are `camera_right`,
`camera_up`, `camera_dir`, with homogeneous last row/column. -/
def rotation_mat (r u d : Vec3f) : Mat4f :=
  ![![r.x, r.y, r.z, 0],
    ![u.x, u.y, u.z, 0],
    ![d.x, d.y, d.z, 0],
    ![0, 0, 0, 1]]

/-- The translation factor `mat2` built in `main`: identity with last column
`-camera_pos`. -/
def translation_mat (p : Vec3f) : Mat4f :=
  ![![1, 0, 0, -p.x],
    ![0, 1, 0, -p.y],
    ![0, 0, 1, -p.z],
    ![0, 0, 0, 1]]

/-- `world_up` from `main`: the fixed vector `{0.0f, 1.0f, 0.0f}`. -/
def world_up : Vec3f :=
  ⟨0, 1, 0⟩

/-- The SDL keycode `SDLK_ESCAPE` (the escape character, code 27). -/
def SDLK_ESCAPE : Int := 27

/-- The SDL button code `SDL_BUTTON_LEFT` (1). -/
def SDL_BUTTON_LEFT : Int := 1

/-- The SDL events the event loops inspect: `SDL_QUIT` (window close),
`SDL_KEYDOWN` with its key symbol, `SDL_MOUSEBUTTONDOWN` / `SDL_MOUSEBUTTONUP`
with their button, `SDL_MOUSEMOTION` with its relative motion (`xrel`,
`yrel` are integers in SDL), and a catch-all for every other event type. -/
inductive SDLEvent where
  | quitEvent : SDLEvent
  | keyDown (sym : Int) : SDLEvent
  | mouseButtonDown (button : Int) : SDLEvent
  | mouseButtonUp (button : Int) : SDLEvent
  | mouseMotion (xrel yrel : Int) : SDLEvent
  | otherEvent : SDLEvent
deriving DecidableEq

/-- The mutable state of `main` in `src/unnamed/part_000` that the event
loop touches: the camera vectors, yaw/pitch in degrees, the view matrix,
the left-mouse-button flag and the `quit` flag. -/
structure CameraState where
  camera_pos : Vec3f
  camera_dir : Vec3f
  camera_right : Vec3f
  camera_up : Vec3f
  yaw_deg : ℝ
  pitch_deg : ℝ
  look_at_matrix : Mat4f
  is_lmb_pressed : Bool
  quit : Bool

/-- The state right before the event loop of `src/unnamed/part_000`:
`camera_pos = (0,0,3)`, `camera_dir = (0,0,-1)`,
`camera_right = normalize(cross(camera_dir, world_up))`,
`camera_up = cross(camera_right, camera_dir)`, yaw and pitch zero, and the
initial `look_at_matrix` built from those vectors. -/
noncomputable def initial_camera : CameraState :=
  let camera_pos : Vec3f := ⟨0, 0, 3⟩
  let camera_dir : Vec3f := ⟨0, 0, -1⟩
  let camera_right := vec3f_normalize (vec3f_cross camera_dir world_up)
  let camera_up := vec3f_cross camera_right camera_dir
  { camera_pos := camera_pos
    camera_dir := camera_dir
    camera_right := camera_right
    camera_up := camera_up
    yaw_deg := 0
    pitch_deg := 0
    look_at_matrix :=
      mat4f_product (rotation_mat camera_right camera_up camera_dir)
        (translation_mat camera_pos)
    is_lmb_pressed := false
    quit := false }

/-- One iteration of the event `switch` in the main loop of
`src/unnamed/part_000`, translated case by case:
`SDL_QUIT` sets `quit`; `SDL_KEYDOWN` sets `quit` when the key is escape;
the mouse-button cases toggle `is_lmb_pressed` on the left button;
`SDL_MOUSEMOTION` is ignored unless `is_lmb_pressed`, and otherwise adds
`xrel` to yaw, subtracts `yrel` from pitch, clamps pitch to `[-89, 89]`
with the two-branch `if`, recomputes `camera_dir` from yaw/pitch converted
to radians, renormalizes, recomputes `camera_right` and `camera_up`, and
rebuilds `look_at_matrix` as `mat4f_product` of the rotation and
translation factors. -/
noncomputable def handle_event (s : CameraState) (e : SDLEvent) : CameraState :=
  match e with
  | .quitEvent => { s with quit := true }
  | .keyDown sym =>
      if sym = SDLK_ESCAPE then { s with quit := true } else s
  | .mouseButtonDown b =>
      if b = SDL_BUTTON_LEFT then { s with is_lmb_pressed := true } else s
  | .mouseButtonUp b =>
      if b = SDL_BUTTON_LEFT then { s with is_lmb_pressed := false } else s
  | .mouseMotion xrel yrel =>
      if s.is_lmb_pressed then
        let yaw_deg := s.yaw_deg + (xrel : ℝ)
        let pitch_raw := s.pitch_deg - (yrel : ℝ)
        let pitch_deg :=
          if pitch_raw < -89 then -89 else if pitch_raw > 89 then 89 else pitch_raw
        let yaw_rad := yaw_deg * Real.pi / 180
        let pitch_rad := pitch_deg * Real.pi / 180
        let camera_dir := vec3f_normalize
          ⟨Real.sin yaw_rad * Real.cos pitch_rad,
           Real.sin pitch_rad,
           (-Real.cos yaw_rad) * Real.cos pitch_rad⟩
        let camera_right := vec3f_normalize (vec3f_cross camera_dir world_up)
        let camera_up := vec3f_cross camera_right camera_dir
        { s with
          yaw_deg := yaw_deg
          pitch_deg := pitch_deg
          camera_dir := camera_dir
          camera_right := camera_right
          camera_up := camera_up
          look_at_matrix :=
            mat4f_product (rotation_mat camera_right camera_up camera_dir)
              (translation_mat s.camera_pos) }
      else s
  | .otherEvent => s

/-- Folding `handle_event` over a list of polled events, as the inner
`while (SDL_PollEvent(&event))` loop does. -/
noncomputable def process_events (s : CameraState) (es : List SDLEvent) : CameraState :=
  es.foldl handle_event s

/-- One iteration of the event `switch` of the minimal program in
`src/main.c`: its `switch` has a single `SDL_KEYDOWN` case whose inner
`switch` sets `quit` on `SDLK_ESCAPE`; every other event type — including
`SDL_QUIT` — falls through with the state unchanged. -/
def handle_event_minimal (quit : Bool) (e : SDLEvent) : Bool :=
  match e with
  | .keyDown sym => if sym = SDLK_ESCAPE then true else quit
  | _ => quit

/-- Folding `handle_event_minimal` over a list of polled events
(`src/main.c`). -/
def process_events_minimal (quit : Bool) (es : List SDLEvent) : Bool :=
  es.foldl handle_event_minimal quit

/-- An event is a quit signal in the sense of the spec: a window-close
(`SDL_QUIT`) event or an escape-key press. -/
def is_quit_signal : SDLEvent → Bool
  | .quitEvent => true
  | .keyDown sym => sym == SDLK_ESCAPE
  | _ => false

/-- An escape-key press (the only event the `src/main.c` loop quits on). -/
def is_escape_keydown : SDLEvent → Bool
  | .keyDown sym => sym == SDLK_ESCAPE
  | _ => false

/-- Specification accumulator for yaw: the sum of the `xrel` deltas of the
mouse-motion events that are processed while the left button is held,
tracking the button flag through the event list exactly as the loop
does. -/
def drag_dx_sum : Bool → List SDLEvent → Int
  | _, [] => 0
  | pressed, SDLEvent.mouseButtonDown b :: es =>
      drag_dx_sum (if b = SDL_BUTTON_LEFT then true else pressed) es
  | pressed, SDLEvent.mouseButtonUp b :: es =>
      drag_dx_sum (if b = SDL_BUTTON_LEFT then false else pressed) es
  | pressed, SDLEvent.mouseMotion xrel _ :: es =>
      (if pressed then xrel else 0) + drag_dx_sum pressed es
  | pressed, SDLEvent.quitEvent :: es => drag_dx_sum pressed es
  | pressed, SDLEvent.keyDown _ :: es => drag_dx_sum pressed es
  | pressed, SDLEvent.otherEvent :: es => drag_dx_sum pressed es

/-- The camera basis is mutually orthogonal: all three pairwise dot
products vanish. -/
def ortho_basis (s : CameraState) : Prop :=
  vec3f_dot s.camera_right s.camera_up = 0 ∧
  vec3f_dot s.camera_right s.camera_dir = 0 ∧
  vec3f_dot s.camera_up s.camera_dir = 0

/-- The view matrix stored in the state is the product of the rotation and
translation factors built from the current camera vectors. -/
def view_consistent (s : CameraState) : Prop :=
  s.look_at_matrix =
    mat4f_product (rotation_mat s.camera_right s.camera_up s.camera_dir)
      (translation_mat s.camera_pos)

/-! ### Helper lemmas about the vector operations -/

/-- The cross product is orthogonal to its first argument. -/
lemma vec3f_dot_cross_left (a b : Vec3f) : vec3f_dot (vec3f_cross a b) a = 0 := by
  simp only [vec3f_dot, vec3f_cross]
  ring

/-- The cross product is orthogonal to its second argument. -/
lemma vec3f_dot_cross_right (a b : Vec3f) : vec3f_dot (vec3f_cross a b) b = 0 := by
  simp only [vec3f_dot, vec3f_cross]
  ring

/-- The dot product is symmetric. -/
lemma vec3f_dot_comm (a b : Vec3f) : vec3f_dot a b = vec3f_dot b a := by
  simp only [vec3f_dot]
  ring

/-- Normalizing the first argument rescales the dot product. -/
lemma vec3f_dot_normalize_left (v w : Vec3f) :
    vec3f_dot (vec3f_normalize v) w = vec3f_dot v w / vec3f_get_length v := by
  simp only [vec3f_dot, vec3f_normalize]
  ring

/-- The basis recomputed by the drag handler (and by initialization) from an
arbitrary direction `d` is mutually orthogonal in exact arithmetic. -/
lemma recomputed_basis_ortho (d : Vec3f) :
    vec3f_dot (vec3f_normalize (vec3f_cross d world_up))
        (vec3f_cross (vec3f_normalize (vec3f_cross d world_up)) d) = 0 ∧
    vec3f_dot (vec3f_normalize (vec3f_cross d world_up)) d = 0 ∧
    vec3f_dot (vec3f_cross (vec3f_normalize (vec3f_cross d world_up)) d) d = 0 := by
  refine ⟨?_, ?_, ?_⟩
  · rw [vec3f_dot_comm]
    exact vec3f_dot_cross_left _ _
  · rw [vec3f_dot_normalize_left, vec3f_dot_cross_left, zero_div]
  · exact vec3f_dot_cross_right _ _

/-- The shape invariant of the camera basis: `camera_right` and `camera_up`
are exactly the expressions the program recomputes them from. -/
def basis_from_dir (s : CameraState) : Prop :=
  s.camera_right = vec3f_normalize (vec3f_cross s.camera_dir world_up) ∧
  s.camera_up = vec3f_cross s.camera_right s.camera_dir

/-- The initial camera satisfies the basis shape invariant. -/
lemma initial_basis_from_dir : basis_from_dir initial_camera :=
  ⟨rfl, rfl⟩

/-- Every event preserves the basis shape invariant. -/
lemma handle_event_basis_from_dir (s : CameraState) (e : SDLEvent)
    (h : basis_from_dir s) : basis_from_dir (handle_event s e) := by
  cases e with
  | quitEvent => exact h
  | keyDown sym =>
      simp only [handle_event]
      split <;> exact h
  | mouseButtonDown b =>
      simp only [handle_event]
      split <;> exact h
  | mouseButtonUp b =>
      simp only [handle_event]
      split <;> exact h
  | mouseMotion xrel yrel =>
      simp only [handle_event]
      split
      · exact ⟨rfl, rfl⟩
      · exact h
  | otherEvent => exact h

/-- Processing any list of events preserves the basis shape invariant. -/
lemma process_events_basis_from_dir (es : List SDLEvent) (s : CameraState)
    (h : basis_from_dir s) : basis_from_dir (process_events s es) := by
  induction es generalizing s with
  | nil => exact h
  | cons e es ih => exact ih _ (handle_event_basis_from_dir s e h)

/-- The basis shape invariant implies mutual orthogonality. -/
lemma ortho_of_basis_from_dir (s : CameraState) (h : basis_from_dir s) :
    ortho_basis s := by
  obtain ⟨h1, h2⟩ := h
  obtain ⟨o1, o2, o3⟩ := recomputed_basis_ortho s.camera_dir
  refine ⟨?_, ?_, ?_⟩
  · rw [h2, h1]
    exact o1
  · rw [h1]
    exact o2
  · rw [h2, h1]
    exact o3

/-- C1: after any sequence of events processed from the initial camera
state (world-up fixed at `(0,1,0)`), the camera's right, up, and direction
vectors are mutually orthogonal: each pairwise dot product is exactly zero
in exact arithmetic. -/
theorem camera_basis_mutually_orthogonal (es : List SDLEvent) :
    vec3f_dot (process_events initial_camera es).camera_right
        (process_events initial_camera es).camera_up = 0 ∧
    vec3f_dot (process_events initial_camera es).camera_right
        (process_events initial_camera es).camera_dir = 0 ∧
    vec3f_dot (process_events initial_camera es).camera_up
        (process_events initial_camera es).camera_dir = 0 :=
  ortho_of_basis_from_dir _
    (process_events_basis_from_dir es initial_camera initial_basis_from_dir)

/-- C8: the cross product is anti-commutative. -/
theorem vec3f_cross_antisymm (a b : Vec3f) :
    vec3f_cross a b = -vec3f_cross b a := by
  show vec3f_cross a b = vec3f_neg (vec3f_cross b a)
  apply Vec3f.ext <;> (simp only [vec3f_cross, vec3f_neg]; ring)

/-- C6: for every vector of nonzero length, `vec3f_normalize` returns a
vector of length exactly 1 in exact arithmetic (the zero-length case is a
documented precondition violation, unchecked in the code). -/
theorem normalize_unit_length (v : Vec3f) (h : vec3f_get_length v ≠ 0) :
    vec3f_get_length (vec3f_normalize v) = 1 := by
  have hS : 0 ≤ v.x * v.x + v.y * v.y + v.z * v.z :=
    add_nonneg (add_nonneg (mul_self_nonneg _) (mul_self_nonneg _)) (mul_self_nonneg _)
  have hL2 : vec3f_get_length v * vec3f_get_length v
      = v.x * v.x + v.y * v.y + v.z * v.z := Real.mul_self_sqrt hS
  have hSne : v.x * v.x + v.y * v.y + v.z * v.z ≠ 0 := by
    intro h0
    exact h (by rw [vec3f_get_length, h0, Real.sqrt_zero])
  have hsum : (v.x / vec3f_get_length v) * (v.x / vec3f_get_length v)
      + (v.y / vec3f_get_length v) * (v.y / vec3f_get_length v)
      + (v.z / vec3f_get_length v) * (v.z / vec3f_get_length v)
      = (v.x * v.x + v.y * v.y + v.z * v.z)
        / (vec3f_get_length v * vec3f_get_length v) := by
    ring
  rw [vec3f_normalize, vec3f_get_length]
  simp only
  rw [hsum, hL2, div_self hSne, Real.sqrt_one]

/-- Witness for C6 at the concrete vector `(3,4,0)` (length 5). -/
theorem normalize_unit_length_witness :
    vec3f_get_length ⟨3, 4, 0⟩ ≠ 0 ∧
    vec3f_get_length (vec3f_normalize ⟨3, 4, 0⟩) = 1 := by
  have hne : vec3f_get_length ⟨3, 4, 0⟩ ≠ 0 := by
    rw [vec3f_get_length, Real.sqrt_ne_zero']
    norm_num
  exact ⟨hne, normalize_unit_length _ hne⟩

/-- Every event keeps pitch inside `[-89, 89]` if it was inside. -/
lemma handle_event_pitch_bounds (s : CameraState) (e : SDLEvent)
    (h : -89 ≤ s.pitch_deg ∧ s.pitch_deg ≤ 89) :
    -89 ≤ (handle_event s e).pitch_deg ∧ (handle_event s e).pitch_deg ≤ 89 := by
  cases e with
  | quitEvent => exact h
  | keyDown sym =>
      simp only [handle_event]
      split <;> exact h
  | mouseButtonDown b =>
      simp only [handle_event]
      split <;> exact h
  | mouseButtonUp b =>
      simp only [handle_event]
      split <;> exact h
  | mouseMotion xrel yrel =>
      simp only [handle_event]
      split
      · dsimp only
        split_ifs with h1 h2
        · norm_num
        · norm_num
        · exact ⟨le_of_not_lt h1, le_of_not_lt h2⟩
      · exact h
  | otherEvent => exact h

/-- The pitch bound is an invariant of event processing. -/
lemma process_events_pitch_bounds (es : List SDLEvent) (s : CameraState)
    (h : -89 ≤ s.pitch_deg ∧ s.pitch_deg ≤ 89) :
    -89 ≤ (process_events s es).pitch_deg ∧ (process_events s es).pitch_deg ≤ 89 := by
  induction es generalizing s with
  | nil => exact h
  | cons e es ih => exact ih _ (handle_event_pitch_bounds s e h)

/-- C4: after any sequence of events processed from the initial camera
state, `pitch_deg` lies within `[-89, 89]`, regardless of cumulative input
magnitude. -/
theorem pitch_never_leaves_clamp_range (es : List SDLEvent) :
    -89 ≤ (process_events initial_camera es).pitch_deg ∧
    (process_events initial_camera es).pitch_deg ≤ 89 :=
  process_events_pitch_bounds es initial_camera (by norm_num [initial_camera])

/-- The initial view matrix is the product of the two factors. -/
lemma initial_view_consistent : view_consistent initial_camera := rfl

/-- Every event preserves view-matrix consistency. -/
lemma handle_event_view_consistent (s : CameraState) (e : SDLEvent)
    (h : view_consistent s) : view_consistent (handle_event s e) := by
  cases e with
  | quitEvent => exact h
  | keyDown sym =>
      simp only [handle_event]
      split <;> exact h
  | mouseButtonDown b =>
      simp only [handle_event]
      split <;> exact h
  | mouseButtonUp b =>
      simp only [handle_event]
      split <;> exact h
  | mouseMotion xrel yrel =>
      simp only [handle_event]
      split
      · exact rfl
      · exact h
  | otherEvent => exact h

/-- View-matrix consistency is an invariant of event processing. -/
lemma process_events_view_consistent (es : List SDLEvent) (s : CameraState)
    (h : view_consistent s) : view_consistent (process_events s es) := by
  induction es generalizing s with
  | nil => exact h
  | cons e es ih => exact ih _ (handle_event_view_consistent s e h)

/-- C3: the view matrix held by the state after any sequence of events is
the `mat4f_product` of the rotation factor (rows right, up, direction,
homogeneous last row/column) and the translation factor (shift by the
negated camera position); and `mat4f_product` is the standard row-by-column
product `result[i][j] = Σ_k a[i][k] * b[k][j]`. -/
theorem view_matrix_is_rotation_times_translation :
    (∀ es : List SDLEvent,
      (process_events initial_camera es).look_at_matrix =
        mat4f_product
          (rotation_mat (process_events initial_camera es).camera_right
            (process_events initial_camera es).camera_up
            (process_events initial_camera es).camera_dir)
          (translation_mat (process_events initial_camera es).camera_pos)) ∧
    (∀ (a b : Mat4f) (i j : Fin 4),
      mat4f_product a b i j = ∑ k : Fin 4, a i k * b k j) := by
  constructor
  · intro es
    exact process_events_view_consistent es initial_camera initial_view_consistent
  · intro a b i j
    rw [Fin.sum_univ_four]
    simp only [mat4f_product]
    ring

/-- The effect of one event on the `quit` flag of the full program. -/
lemma handle_event_quit (s : CameraState) (e : SDLEvent) :
    (handle_event s e).quit = (s.quit || is_quit_signal e) := by
  cases e with
  | quitEvent => simp [handle_event, is_quit_signal]
  | keyDown sym =>
      by_cases hsym : sym = SDLK_ESCAPE <;>
        simp [handle_event, is_quit_signal, hsym]
  | mouseButtonDown b =>
      simp only [handle_event, is_quit_signal]
      split <;> simp
  | mouseButtonUp b =>
      simp only [handle_event, is_quit_signal]
      split <;> simp
  | mouseMotion xrel yrel =>
      simp only [handle_event, is_quit_signal]
      split <;> simp
  | otherEvent => simp [handle_event, is_quit_signal]

/-- The `quit` flag after a batch of events, for the full program. -/
lemma process_events_quit (es : List SDLEvent) (s : CameraState) :
    (process_events s es).quit = (s.quit || es.any is_quit_signal) := by
  induction es generalizing s with
  | nil => simp [process_events]
  | cons e es ih =>
      show (process_events (handle_event s e) es).quit = _
      rw [ih, handle_event_quit]
      simp [Bool.or_assoc]

/-- The effect of one event on the `quit` flag of the `src/main.c` loop. -/
lemma handle_event_minimal_quit (q : Bool) (e : SDLEvent) :
    handle_event_minimal q e = (q || is_escape_keydown e) := by
  cases e with
  | keyDown sym =>
      by_cases hsym : sym = SDLK_ESCAPE <;>
        simp [handle_event_minimal, is_escape_keydown, hsym]
  | quitEvent => simp [handle_event_minimal, is_escape_keydown]
  | mouseButtonDown b => simp [handle_event_minimal, is_escape_keydown]
  | mouseButtonUp b => simp [handle_event_minimal, is_escape_keydown]
  | mouseMotion xrel yrel => simp [handle_event_minimal, is_escape_keydown]
  | otherEvent => simp [handle_event_minimal, is_escape_keydown]

/-- The `quit` flag after a batch of events, for the `src/main.c` loop. -/
lemma process_events_minimal_quit (es : List SDLEvent) (q : Bool) :
    process_events_minimal q es = (q || es.any is_escape_keydown) := by
  induction es generalizing q with
  | nil => simp [process_events_minimal]
  | cons e es ih =>
      show process_events_minimal (handle_event_minimal q e) es = _
      rw [ih, handle_event_minimal_quit]
      simp [Bool.or_assoc]

/-- C5 counterexample: a window-close (`SDL_QUIT`) event is a quit signal,
yet the event loop of `src/main.c` — one of the loops the claim covers —
leaves its `quit` flag false after processing it, so that loop does not
terminate on window-close. -/
theorem window_close_ignored_by_minimal_loop :
    is_quit_signal SDLEvent.quitEvent = true ∧
    process_events_minimal false [SDLEvent.quitEvent] = false :=
  ⟨rfl, rfl⟩

/-- C5 (amended): the event loop of the full program
(`src/unnamed/part_000`) exits exactly when a window-close event or an
escape-key press was received, while the minimal loop of `src/main.c` exits
exactly when an escape-key press was received — a window-close event alone
does not end it. -/
theorem event_loop_quit_characterization :
    (∀ (s : CameraState) (es : List SDLEvent),
      (process_events s es).quit = (s.quit || es.any is_quit_signal)) ∧
    (∀ (q : Bool) (es : List SDLEvent),
      process_events_minimal q es = (q || es.any is_escape_keydown)) :=
  ⟨fun s es => process_events_quit es s, fun q es => process_events_minimal_quit es q⟩

/-- C9: a mouse-motion event processed while the left mouse button is not
held leaves the entire camera state (yaw, pitch, all camera vectors, the
view matrix, and both flags) unchanged. -/
theorem motion_without_button_is_noop (s : CameraState) (xrel yrel : Int)
    (h : s.is_lmb_pressed = false) :
    handle_event s (SDLEvent.mouseMotion xrel yrel) = s := by
  simp [handle_event, h]

/-- Witness for C9 at the initial camera state (button not held) and a
concrete motion of `(5, -7)`. -/
theorem motion_without_button_is_noop_witness :
    initial_camera.is_lmb_pressed = false ∧
    handle_event initial_camera (SDLEvent.mouseMotion 5 (-7)) = initial_camera :=
  ⟨rfl, motion_without_button_is_noop initial_camera 5 (-7) rfl⟩

/-- C10: yaw is never clamped or wrapped: a mouse-motion event adds exactly
its `xrel` to `yaw_deg` when the left button is held (and nothing
otherwise), and over any event sequence `yaw_deg` equals the starting yaw
plus the exact sum of the `xrel` deltas of the drag events processed while
the button was held. -/
theorem yaw_accumulates_exactly :
    (∀ (s : CameraState) (xrel yrel : Int),
      (handle_event s (SDLEvent.mouseMotion xrel yrel)).yaw_deg =
        s.yaw_deg + (if s.is_lmb_pressed then (xrel : ℝ) else 0)) ∧
    (∀ (es : List SDLEvent) (s : CameraState),
      (process_events s es).yaw_deg =
        s.yaw_deg + ((drag_dx_sum s.is_lmb_pressed es : Int) : ℝ)) := by
  constructor
  · intro s xrel yrel
    simp only [handle_event]
    split
    · next hp => simp [hp]
    · next hp => simp [hp]
  · intro es
    induction es with
    | nil => intro s; simp [process_events, drag_dx_sum]
    | cons e es ih =>
        intro s
        show (process_events (handle_event s e) es).yaw_deg = _
        rw [ih]
        cases e with
        | quitEvent => simp [handle_event, drag_dx_sum]
        | keyDown sym =>
            simp only [handle_event, drag_dx_sum]
            split <;> rfl
        | mouseButtonDown b =>
            by_cases hb : b = SDL_BUTTON_LEFT <;>
              simp [handle_event, drag_dx_sum, hb]
        | mouseButtonUp b =>
            by_cases hb : b = SDL_BUTTON_LEFT <;>
              simp [handle_event, drag_dx_sum, hb]
        | mouseMotion xrel yrel =>
            by_cases hp : s.is_lmb_pressed
            · simp only [handle_event, drag_dx_sum, hp, if_true]
              push_cast
              ring
            · simp [handle_event, drag_dx_sum, hp]
        | otherEvent => simp [handle_event, drag_dx_sum]

/-- The two-branch `if` clamp of the source equals the spec's clamp to
`[-89, 89]` expressed with `max`/`min`. -/
lemma clamp_eq_max_min (x : ℝ) :
    (if x < -89 then (-89 : ℝ) else if x > 89 then 89 else x) =
      max (-89) (min x 89) := by
  split_ifs with h1 h2
  · rw [min_eq_left (by linarith), max_eq_left (by linarith)]
  · rw [min_eq_right (by linarith), max_eq_right (by norm_num)]
  · rw [min_eq_left (by linarith), max_eq_right (by linarith)]

/-- C2: a mouse-motion event processed while the left button is held adds
`xrel` to yaw, subtracts `yrel` from pitch and clamps the result to
`[-89, 89]`, and sets the direction to the normalization of
`(sin(yaw)·cos(pitch), sin(pitch), -cos(yaw)·cos(pitch))` with the updated
angles converted from degrees to radians. -/
theorem drag_update_formulas (s : CameraState) (xrel yrel : Int)
    (h : s.is_lmb_pressed = true) :
    (handle_event s (SDLEvent.mouseMotion xrel yrel)).yaw_deg
        = s.yaw_deg + (xrel : ℝ) ∧
    (handle_event s (SDLEvent.mouseMotion xrel yrel)).pitch_deg
        = max (-89) (min (s.pitch_deg - (yrel : ℝ)) 89) ∧
    (handle_event s (SDLEvent.mouseMotion xrel yrel)).camera_dir
        = vec3f_normalize
          ⟨Real.sin ((s.yaw_deg + (xrel : ℝ)) * Real.pi / 180)
              * Real.cos (max (-89) (min (s.pitch_deg - (yrel : ℝ)) 89)
                  * Real.pi / 180),
           Real.sin (max (-89) (min (s.pitch_deg - (yrel : ℝ)) 89)
              * Real.pi / 180),
           -(Real.cos ((s.yaw_deg + (xrel : ℝ)) * Real.pi / 180)
              * Real.cos (max (-89) (min (s.pitch_deg - (yrel : ℝ)) 89)
                  * Real.pi / 180))⟩ := by
  simp only [handle_event, h, if_true]
  refine ⟨trivial, clamp_eq_max_min _, ?_⟩
  rw [clamp_eq_max_min, neg_mul]

/-- The initial camera state with the left mouse button held (as after a
left-button-down event), used to exercise the drag update concretely. -/
noncomputable def pressed_camera : CameraState :=
  { initial_camera with is_lmb_pressed := true }

/-- Witness for C2 at the pressed initial state and a concrete drag of
`(3, 4)`. -/
theorem drag_update_formulas_witness :
    pressed_camera.is_lmb_pressed = true ∧
    ((handle_event pressed_camera (SDLEvent.mouseMotion 3 4)).yaw_deg
        = pressed_camera.yaw_deg + ((3 : Int) : ℝ) ∧
     (handle_event pressed_camera (SDLEvent.mouseMotion 3 4)).pitch_deg
        = max (-89) (min (pressed_camera.pitch_deg - ((4 : Int) : ℝ)) 89) ∧
     (handle_event pressed_camera (SDLEvent.mouseMotion 3 4)).camera_dir
        = vec3f_normalize
          ⟨Real.sin ((pressed_camera.yaw_deg + ((3 : Int) : ℝ)) * Real.pi / 180)
              * Real.cos (max (-89) (min (pressed_camera.pitch_deg - ((4 : Int) : ℝ)) 89)
                  * Real.pi / 180),
           Real.sin (max (-89) (min (pressed_camera.pitch_deg - ((4 : Int) : ℝ)) 89)
              * Real.pi / 180),
           -(Real.cos ((pressed_camera.yaw_deg + ((3 : Int) : ℝ)) * Real.pi / 180)
              * Real.cos (max (-89) (min (pressed_camera.pitch_deg - ((4 : Int) : ℝ)) 89)
                  * Real.pi / 180))⟩) :=
  ⟨rfl, drag_update_formulas pressed_camera 3 4 rfl⟩

/-- C7: starting from the initial camera state (yaw 0, pitch 0), a drag of
`(0, 0)` — a left-button press followed by a zero mouse motion — leaves the
camera direction unchanged at `(0, 0, -1)`. -/
theorem zero_drag_keeps_direction :
    (process_events initial_camera
        [SDLEvent.mouseButtonDown 1, SDLEvent.mouseMotion 0 0]).camera_dir
      = initial_camera.camera_dir ∧
    initial_camera.camera_dir = ⟨0, 0, -1⟩ := by
  constructor
  · show (handle_event (handle_event initial_camera (SDLEvent.mouseButtonDown 1))
        (SDLEvent.mouseMotion 0 0)).camera_dir = initial_camera.camera_dir
    have h1 : handle_event initial_camera (SDLEvent.mouseButtonDown 1)
        = { initial_camera with is_lmb_pressed := true } := by
      simp [handle_event, SDL_BUTTON_LEFT]
    rw [h1]
    norm_num [handle_event, initial_camera, vec3f_normalize, vec3f_get_length,
      Real.sin_zero, Real.cos_zero, Real.sqrt_one]
  · rfl
